import Mathlib

/-
  Verification development for the Arduino snake game sketch
  (src/arduino-snake-game/arduino-snake-game.ino).

  The game core is embedded shallowly: the C++ classes point, Snake and Food
  become Lean structures over Int coordinates and lists of cells, and the
  per-tick body of loop becomes the function tick.  C++ signed remainder is
  modelled by Int.tmod (truncation toward zero); random(n) samples are
  modelled by a stream of natural numbers reduced modulo the grid size, and
  the unbounded retry loop of placeFood consumes such a stream, returning
  none when the stream is exhausted before placement finishes.  Hardware
  output (LED matrix pixels, buzzer, delays) has no effect on the game state
  and is not modelled.
-/

namespace ArduinoSnakeGame

/-- Model of struct point: an integer pair with componentwise addition and
exact equality. -/
structure point where
  x : Int
  y : Int
  deriving DecidableEq

instance : Add point where
  add a b := ⟨a.x + b.x, a.y + b.y⟩

/-- Componentwise sum of two points, as defined by the C++ operator. -/
theorem point_add_def (a b : point) : a + b = ⟨a.x + b.x, a.y + b.y⟩ := rfl

/-- Model of enum Direction, with enumerators in source order. -/
inductive Direction where
  | LEFT
  | UP
  | RIGHT
  | DOWN
  deriving DecidableEq

open Direction

/-- Numeric value of each enumerator, as assigned by the C++ enum. -/
def Direction.toInt : Direction → Int
  | LEFT => 0
  | UP => 1
  | RIGHT => 2
  | DOWN => 3

/-- Model of makeDirectionVector. -/
def makeDirectionVector : Direction → point
  | LEFT => ⟨-1, 0⟩
  | UP => ⟨0, -1⟩
  | RIGHT => ⟨1, 0⟩
  | DOWN => ⟨0, 1⟩

/-- Height of the LED matrix (const int ROWS = 8). -/
def ROWS : Int := 8

/-- Width of the LED matrix (const int COLUMNS = 8). -/
def COLUMNS : Int := 8

/-- Maximal length of the snake (const int MAX_SNAKE_LENGTH = 12). -/
def MAX_SNAKE_LENGTH : Int := 12

/-- Initial size of the snake (const int INIT_SNAKE_LENGTH = 2). -/
def INIT_SNAKE_LENGTH : Int := 2

/-- Total amount of food points on the play field (const int FOOD_POINTS = 2). -/
def FOOD_POINTS : Int := 2

/-- Refill strategy switch (const bool REFILL_IMMEDIATELY = true). -/
def REFILL_IMMEDIATELY : Bool := true

/-- Model of class Snake: the list of occupied cells, index 0 the tail and the
last index the head, exactly the meaningful prefix of the m_snake array. -/
structure Snake where
  cells : List point
  deriving DecidableEq

/-- getHead returns m_snake at index m_currentLength - 1. -/
def Snake.getHead (sn : Snake) : point :=
  sn.cells.getLastD ⟨0, 0⟩

/-- getTail returns m_snake at index 0. -/
def Snake.getTail (sn : Snake) : point :=
  sn.cells.headD ⟨0, 0⟩

/-- getLength returns m_currentLength. -/
def Snake.getLength (sn : Snake) : Int :=
  sn.cells.length

/-- Model of Snake.extend: shift the head by the direction vector, add the
grid dimensions, reduce each coordinate by the C++ remainder, and append the
new head. -/
def Snake.extend (sn : Snake) (dir : Direction) : Snake :=
  let h := sn.getHead + makeDirectionVector dir + (⟨COLUMNS, ROWS⟩ : point)
  ⟨sn.cells ++ [(⟨Int.tmod h.x COLUMNS, Int.tmod h.y ROWS⟩ : point)]⟩

/-- Model of Snake.cut: shift all points left by one, dropping the tail. -/
def Snake.cut (sn : Snake) : Snake :=
  ⟨sn.cells.tail⟩

/-- Model of Snake.isOccupied: scan all cells for the point. -/
def Snake.isOccupied (sn : Snake) (p : point) : Bool :=
  sn.cells.any (fun q => p == q)

/-- Model of Snake.checkSelfCollision: compare the head with every cell of
index below m_currentLength - 1. -/
def Snake.checkSelfCollision (sn : Snake) : Bool :=
  (sn.cells.take (sn.cells.length - 1)).any (fun q => q == sn.getHead)

/-- Model of class Food: the list of active food cells, exactly the meaningful
prefix of the m_foodPoints array. -/
structure Food where
  foodPoints : List point
  deriving DecidableEq

/-- getCount returns m_foodCount. -/
def Food.getCount (fd : Food) : Int :=
  fd.foodPoints.length

/-- Model of Food.isOccupied: scan all active food cells for the point. -/
def Food.isOccupied (fd : Food) (p : point) : Bool :=
  fd.foodPoints.any (fun q => q == p)

/-- Model of Food.placeFood: repeatedly draw a random cell, accept it when it
is free of the snake and of the food already placed, decrement the remaining
count after each acceptance and stop once it reaches zero or below.  The
random stream is a list of natural-number pairs reduced modulo the grid
dimensions, as random(n) yields a value in the range 0 to n - 1; exhausting
the stream before placement finishes yields none, so an infinite retry loop
is the statement that every stream yields none. -/
def Food.placeFood (fd : Food) (sn : Snake) (numToPlace : Int) :
    List (Nat × Nat) → Option Food
  | [] => none
  | (rx, ry) :: rest =>
    let p : point := ⟨(rx : Int) % COLUMNS, (ry : Int) % ROWS⟩
    if !sn.isOccupied p && !fd.isOccupied p then
      if numToPlace - 1 ≤ 0 then some ⟨fd.foodPoints ++ [p]⟩
      else Food.placeFood ⟨fd.foodPoints ++ [p]⟩ sn (numToPlace - 1) rest
    else Food.placeFood fd sn numToPlace rest

/-- The scan inside Food.tryEat: find the first cell equal to p and overwrite
that slot with the last active element, leaving every other slot in place. -/
def tryEatGo (p lastCell : point) : List point → Option (List point)
  | [] => none
  | q :: rest =>
    if q == p then some (lastCell :: rest)
    else Option.map (fun l => q :: l) (tryEatGo p lastCell rest)

/-- Model of Food.tryEat: on a match, swap the matching slot with the last
active element and shrink the count by one; otherwise leave the state
unchanged and report false. -/
def Food.tryEat (fd : Food) (p : point) : Bool × Food :=
  match tryEatGo p (fd.foodPoints.getLastD ⟨0, 0⟩) fd.foodPoints with
  | some l => (true, ⟨l.dropLast⟩)
  | none => (false, fd)

/-- Result of the terminal checks of one pass of loop. -/
inductive Outcome where
  | Running
  | Lost
  | Won
  deriving DecidableEq

/-- The mutable game state: the snake, the food set and the global heading
variable direct. -/
structure GameState where
  snake : Snake
  food : Food
  direct : Direction
  deriving DecidableEq

/-- Heading update at the top of loop: the joystick direction becomes the new
heading exactly when the difference of the enum values has a nonzero C++
remainder modulo 2. -/
def updateDirection (direct newDirect : Direction) : Direction :=
  if Int.tmod (newDirect.toInt - direct.toInt) 2 ≠ 0 then newDirect else direct

/-- Amount passed to placeFood by the refill step of loop, none when the guard
fails and no call is made. -/
def refillShortfall (refillImmediately : Bool) (count : Int) : Option Int :=
  if refillImmediately then
    if count < FOOD_POINTS then some (FOOD_POINTS - count) else none
  else
    if count = 0 then some FOOD_POINTS else none

/-- The snake after the movement part of one pass of loop: extend toward the
updated heading, then cut the tail unless the new head ate a food cell. -/
def tickSnake (s : GameState) (input : Direction) : Snake :=
  let sn1 := s.snake.extend (updateDirection s.direct input)
  if (s.food.tryEat sn1.getHead).1 then sn1 else sn1.cut

/-- The terminal checks at the end of loop, in source order. -/
def tickOutcome (sn : Snake) : Outcome :=
  if sn.checkSelfCollision then Outcome.Lost
  else if sn.getLength = MAX_SNAKE_LENGTH then Outcome.Won
  else Outcome.Running

/-- One pass of loop in the Running state: update the heading, extend the
snake, try to eat at the new head, cut unless food was eaten, refill the food
per the configured strategy, then run the terminal checks.  The given random
samples feed placeFood; none means the sample stream ran out before the
refill finished. -/
def tick (s : GameState) (input : Direction) (rnd : List (Nat × Nat)) :
    Option (GameState × Outcome) :=
  let d := updateDirection s.direct input
  let res := s.food.tryEat (s.snake.extend d).getHead
  let sn2 := tickSnake s input
  let fd2? :=
    match refillShortfall REFILL_IMMEDIATELY res.2.getCount with
    | some a => res.2.placeFood sn2 a rnd
    | none => some res.2
  Option.map (fun fd2 => (⟨sn2, fd2, d⟩, tickOutcome sn2)) fd2?

/-- Cells laid out by the Snake constructor loop, starting at the start point
and advancing by the direction vector. -/
def buildCells : Nat → point → point → List point
  | 0, _, _ => []
  | n + 1, pos, v => pos :: buildCells n (pos + v) v

/-- Model of the Snake constructor: initLength cells from the start point
along the given direction, the tail at the start point. -/
def mkSnake (initLength : Int) (start : point) (dir : Direction) : Snake :=
  ⟨buildCells initLength.toNat start (makeDirectionVector dir)⟩

/-- Model of initGame: a fresh snake of length INIT_SNAKE_LENGTH whose tail
sits at (COLUMNS - 1, 0), built along the current heading, and a fresh empty
food set; initGame itself places no food. -/
def initGame (d : Direction) : GameState :=
  ⟨mkSnake INIT_SNAKE_LENGTH ⟨COLUMNS - 1, 0⟩ d, ⟨[]⟩, d⟩

/-- The state after the terminal checks: on Lost or Won the sketch plays the
feedback and reruns initGame, keeping the current heading; on Running the
state carries over into the next pass. -/
def postTick (s : GameState) (o : Outcome) : GameState :=
  match o with
  | Outcome.Running => s
  | Outcome.Lost => initGame s.direct
  | Outcome.Won => initGame s.direct

/-- Game states observable at tick boundaries: the state after setup, which
runs initGame with heading DOWN and then places FOOD_POINTS food pieces, and
every state produced from one of them by a completed pass of loop. -/
inductive Reachable : GameState → Prop where
  | init : ∀ (rnd : List (Nat × Nat)) (fd : Food),
      Food.placeFood ⟨[]⟩ (initGame DOWN).snake FOOD_POINTS rnd = some fd →
      Reachable ⟨(initGame DOWN).snake, fd, DOWN⟩
  | step : ∀ (s : GameState) (input : Direction) (rnd : List (Nat × Nat))
      (s' : GameState) (o : Outcome),
      Reachable s → tick s input rnd = some (s', o) →
      Reachable (postTick s' o)

/-- All cells of the LED grid. -/
def gridCells : Finset point :=
  (Finset.Icc (0 : Int) (COLUMNS - 1) ×ˢ Finset.Icc (0 : Int) (ROWS - 1)).image
    (fun q => ⟨q.1, q.2⟩)

/-- Grid cells free of the snake and of the food already placed. -/
def freeCells (sn : Snake) (fd : Food) : Finset point :=
  gridCells.filter (fun p => sn.isOccupied p = false ∧ fd.isOccupied p = false)

/-! ### Basic helper lemmas -/

/-- On nonnegative operands the C++ truncated remainder agrees with the
mathematical remainder. -/
theorem tmod_eq_emod_of_nonneg (a b : Int) (ha : 0 ≤ a) (hb : 0 ≤ b) :
    Int.tmod a b = a % b := by
  obtain ⟨m, rfl⟩ := Int.eq_ofNat_of_zero_le ha
  obtain ⟨n, rfl⟩ := Int.eq_ofNat_of_zero_le hb
  rfl

/-- The head of a list stays its head after appending at the back. -/
theorem headD_append_single (l : List point) (a d : point) (h : l ≠ []) :
    (l ++ [a]).headD d = l.headD d := by
  cases l with
  | nil => exact absurd rfl h
  | cons x t => rfl

/-- Dropping the front of a list that was extended at the back keeps the
original length. -/
theorem length_tail_append_single (l : List point) (a : point) :
    ((l ++ [a]).tail).length = l.length := by
  cases l <;> simp

/-- The snake constructor lays out exactly the requested number of cells. -/
theorem buildCells_length (n : Nat) (pos v : point) :
    (buildCells n pos v).length = n := by
  induction n generalizing pos with
  | zero => rfl
  | succ k ih => simp [buildCells, ih]

/-- extend appends the reduced new head at the head end of the sequence. -/
theorem extend_getHead (sn : Snake) (d : Direction) :
    (sn.extend d).getHead =
      ⟨Int.tmod (sn.getHead.x + (makeDirectionVector d).x + COLUMNS) COLUMNS,
       Int.tmod (sn.getHead.y + (makeDirectionVector d).y + ROWS) ROWS⟩ := by
  simp [Snake.extend, Snake.getHead, List.getLastD_concat, point_add_def]

/-- extend increments the length by one. -/
theorem extend_getLength (sn : Snake) (d : Direction) :
    (sn.extend d).getLength = sn.getLength + 1 := by
  simp [Snake.extend, Snake.getLength]

/-- cut after extend restores the length. -/
theorem extend_cut_getLength (sn : Snake) (d : Direction) :
    ((sn.extend d).cut).getLength = sn.getLength := by
  simp [Snake.extend, Snake.cut, Snake.getLength, length_tail_append_single]

/-- extend leaves the tail cell alone. -/
theorem extend_getTail (sn : Snake) (d : Direction) (h : sn.cells ≠ []) :
    (sn.extend d).getTail = sn.getTail := by
  exact headD_append_single sn.cells _ ⟨0, 0⟩ h

/-- The movement part of a tick either keeps the length (tail cut) or grows
it by one (food eaten). -/
theorem tickSnake_getLength (s : GameState) (input : Direction) :
    (tickSnake s input).getLength = s.snake.getLength + 1 ∨
    (tickSnake s input).getLength = s.snake.getLength := by
  simp only [tickSnake]
  split
  · exact Or.inl (extend_getLength _ _)
  · exact Or.inr (extend_cut_getLength _ _)

/-- Inversion of a completed tick: the new state is the moved snake, some
refilled food set and the updated heading, and the outcome is the terminal
check on the moved snake. -/
theorem tick_eq_some (s : GameState) (input : Direction) (rnd : List (Nat × Nat))
    (s' : GameState) (o : Outcome) (h : tick s input rnd = some (s', o)) :
    s'.snake = tickSnake s input ∧ s'.direct = updateDirection s.direct input ∧
    o = tickOutcome (tickSnake s input) := by
  unfold tick at h
  obtain ⟨fd2, _, heq⟩ := Option.map_eq_some'.mp h
  injection heq with h1 h2
  subst h1
  subst h2
  exact ⟨rfl, rfl, rfl⟩

/-! ### The tryEat scan -/

/-- The scan finds nothing exactly when the point is not among the cells. -/
theorem tryEatGo_eq_none_iff (p lastCell : point) (l : List point) :
    tryEatGo p lastCell l = none ↔ p ∉ l := by
  induction l with
  | nil => simp [tryEatGo]
  | cons q rest ih =>
    by_cases hq : q = p
    · subst hq
      simp [tryEatGo]
    · simp [tryEatGo, hq, Option.map_eq_none', ih, Ne.symm hq]

/-- A successful scan splits the list at the first occurrence of the point and
overwrites that slot with the given cell. -/
theorem tryEatGo_eq_some (p lastCell : point) (l l' : List point)
    (h : tryEatGo p lastCell l = some l') :
    ∃ l1 l2, l = l1 ++ p :: l2 ∧ l' = l1 ++ lastCell :: l2 := by
  induction l generalizing l' with
  | nil => simp [tryEatGo] at h
  | cons q rest ih =>
    by_cases hq : q = p
    · subst hq
      simp [tryEatGo] at h
      exact ⟨[], rest, rfl, h.symm⟩
    · have hbeq : (q == p) = false := by simp [hq]
      unfold tryEatGo at h
      rw [hbeq] at h
      simp only [Bool.false_eq_true, if_false, Option.map_eq_some'] at h
      obtain ⟨l2, h1, h2⟩ := h
      obtain ⟨l3, l4, rfl, rfl⟩ := ih l2 h1
      exact ⟨q :: l3, l4, rfl, h2.symm⟩

/-- The value of tryEat when the scan fails. -/
theorem tryEat_eq_of_go_none (fd : Food) (p : point)
    (hgo : tryEatGo p (fd.foodPoints.getLastD ⟨0, 0⟩) fd.foodPoints = none) :
    fd.tryEat p = (false, fd) := by
  unfold Food.tryEat
  rw [hgo]

/-- The value of tryEat when the scan succeeds. -/
theorem tryEat_eq_of_go_some (fd : Food) (p : point) (l : List point)
    (hgo : tryEatGo p (fd.foodPoints.getLastD ⟨0, 0⟩) fd.foodPoints = some l) :
    fd.tryEat p = (true, ⟨l.dropLast⟩) := by
  unfold Food.tryEat
  rw [hgo]

/-- tryEat reports success exactly when the point is an active food cell. -/
theorem tryEat_fst_iff_mem (fd : Food) (p : point) :
    (fd.tryEat p).1 = true ↔ p ∈ fd.foodPoints := by
  cases hgo : tryEatGo p (fd.foodPoints.getLastD ⟨0, 0⟩) fd.foodPoints with
  | none =>
    rw [tryEat_eq_of_go_none fd p hgo]
    simpa using (tryEatGo_eq_none_iff _ _ _).mp hgo
  | some l =>
    rw [tryEat_eq_of_go_some fd p l hgo]
    obtain ⟨l1, l2, hl, _⟩ := tryEatGo_eq_some _ _ _ _ hgo
    simp [hl]

/-- A failed tryEat leaves the food state unchanged. -/
theorem tryEat_snd_of_not_found (fd : Food) (p : point)
    (h : (fd.tryEat p).1 = false) : (fd.tryEat p).2 = fd := by
  cases hgo : tryEatGo p (fd.foodPoints.getLastD ⟨0, 0⟩) fd.foodPoints with
  | none => rw [tryEat_eq_of_go_none fd p hgo]
  | some l => rw [tryEat_eq_of_go_some fd p l hgo] at h; simp at h

/-- A successful tryEat removes exactly one occurrence of the point: putting
the point back among the remaining cells recovers the original cells up to
permutation, and the count drops by one. -/
theorem tryEat_snd_of_found (fd : Food) (p : point)
    (h : (fd.tryEat p).1 = true) :
    ((fd.tryEat p).2.foodPoints : Multiset point) + {p} =
      (fd.foodPoints : Multiset point) ∧
    (fd.tryEat p).2.foodPoints.length + 1 = fd.foodPoints.length := by
  cases hgo : tryEatGo p (fd.foodPoints.getLastD ⟨0, 0⟩) fd.foodPoints with
  | none => rw [tryEat_eq_of_go_none fd p hgo] at h; simp at h
  | some l =>
    rw [tryEat_eq_of_go_some fd p l hgo]
    obtain ⟨l1, l2, hl, hl'⟩ := tryEatGo_eq_some _ _ _ _ hgo
    rcases List.eq_nil_or_concat l2 with h2 | ⟨l2', t, rfl⟩
    · subst h2
      have hlast : fd.foodPoints.getLastD ⟨0, 0⟩ = p := by
        rw [hl, List.getLastD_concat]
      rw [hlast] at hl'
      subst hl'
      refine ⟨?_, ?_⟩
      · rw [List.dropLast_concat, hl]
        rw [← Multiset.coe_singleton, Multiset.coe_add]
      · rw [List.dropLast_concat, hl]
        simp
    · have hl2 : fd.foodPoints = (l1 ++ p :: l2') ++ [t] := by
        rw [hl]; simp
      have hlast : fd.foodPoints.getLastD ⟨0, 0⟩ = t := by
        rw [hl2, List.getLastD_concat]
      rw [hlast] at hl'
      have hl'2 : l = (l1 ++ t :: l2') ++ [t] := by
        rw [hl']; simp
      refine ⟨?_, ?_⟩
      · rw [hl'2, List.dropLast_concat, hl2]
        rw [← Multiset.coe_singleton, Multiset.coe_add, Multiset.coe_eq_coe]
        refine ((List.perm_append_singleton p _).trans ?_).trans
          (List.perm_append_singleton t _).symm
        refine (List.Perm.cons p List.perm_middle).trans ?_
        refine (List.Perm.swap t p _).trans ?_
        exact List.Perm.cons t List.perm_middle.symm
      · rw [hl'2, List.dropLast_concat, hl2]
        simp
        omega

/-- A successful tryEat drops the food count by one. -/
theorem tryEat_count_of_found (fd : Food) (p : point)
    (h : (fd.tryEat p).1 = true) :
    (fd.tryEat p).2.getCount = fd.getCount - 1 := by
  have h2 := (tryEat_snd_of_found fd p h).2
  unfold Food.getCount
  omega


/-! ### placeFood -/

/-- Splitting the acceptance test of placeFood into its two conjuncts. -/
theorem accept_test_eq_true (sn : Snake) (fd : Food) (p : point)
    (h : (!sn.isOccupied p && !fd.isOccupied p) = true) :
    sn.isOccupied p = false ∧ fd.isOccupied p = false := by
  simp only [Bool.and_eq_true, Bool.not_eq_true'] at h
  exact h

/-- With a positive request, a terminating placeFood run grows the food count
by exactly the requested amount: every acceptance increments the count and
decrements the remaining request, and the run stops at zero. -/
theorem placeFood_count_of_pos (sn : Snake) :
    ∀ (rnd : List (Nat × Nat)) (fd : Food) (n : Int) (fd' : Food),
      1 ≤ n → fd.placeFood sn n rnd = some fd' →
      fd'.getCount = fd.getCount + n := by
  intro rnd
  induction rnd with
  | nil =>
    intro fd n fd' hn h
    simp [Food.placeFood] at h
  | cons r rest ih =>
    intro fd n fd' hn h
    obtain ⟨rx, ry⟩ := r
    simp only [Food.placeFood] at h
    split at h
    · split at h
      · rename_i hbreak
        injection h with h
        subst h
        simp only [Food.getCount, List.length_append, List.length_cons,
          List.length_nil]
        push_cast
        omega
      · rename_i hbreak
        have hrec := ih _ _ _ (by omega) h
        simp only [Food.getCount, List.length_append, List.length_cons,
          List.length_nil] at hrec
        simp only [Food.getCount]
        push_cast at hrec ⊢
        omega
    · exact ih _ _ _ hn h

/-- With a request of zero or less, a terminating placeFood run still grows
the food count by exactly one, because the exit test runs only after a
successful placement. -/
theorem placeFood_count_of_nonpos (sn : Snake) :
    ∀ (rnd : List (Nat × Nat)) (fd : Food) (n : Int) (fd' : Food),
      n ≤ 0 → fd.placeFood sn n rnd = some fd' →
      fd'.getCount = fd.getCount + 1 := by
  intro rnd
  induction rnd with
  | nil =>
    intro fd n fd' hn h
    simp [Food.placeFood] at h
  | cons r rest ih =>
    intro fd n fd' hn h
    obtain ⟨rx, ry⟩ := r
    simp only [Food.placeFood] at h
    split at h
    · rw [if_pos (by omega)] at h
      injection h with h
      subst h
      simp only [Food.getCount, List.length_append, List.length_cons,
        List.length_nil]
      push_cast
      omega
    · exact ih _ _ _ hn h

/-- Every sample produced from the random stream lies on the grid. -/
theorem sample_mem_gridCells (rx ry : Nat) :
    (⟨(rx : Int) % COLUMNS, (ry : Int) % ROWS⟩ : point) ∈ gridCells := by
  unfold gridCells
  refine Finset.mem_image.mpr ⟨((rx : Int) % COLUMNS, (ry : Int) % ROWS), ?_, rfl⟩
  rw [Finset.mem_product]
  constructor <;> rw [Finset.mem_Icc] <;> unfold COLUMNS ROWS <;> omega

/-- Accepting a sample removes exactly that cell from the free cells. -/
theorem freeCells_append (sn : Snake) (fd : Food) (p : point) :
    freeCells sn ⟨fd.foodPoints ++ [p]⟩ = (freeCells sn fd).erase p := by
  ext q
  simp only [freeCells, Finset.mem_filter, Finset.mem_erase, Food.isOccupied,
    List.any_append, List.any_cons, List.any_nil, Bool.or_eq_false_iff,
    Bool.or_false, beq_eq_false_iff_ne, ne_eq]
  constructor
  · rintro ⟨hg, hs, hf, hpq⟩
    exact ⟨fun hqp => hpq hqp.symm, hg, hs, hf⟩
  · rintro ⟨hqp, hg, hs, hf⟩
    exact ⟨hg, hs, hf, fun h => hqp h.symm⟩

/-- A sample accepted by placeFood is one of the free cells. -/
theorem accepted_mem_freeCells (sn : Snake) (fd : Food) (rx ry : Nat)
    (h : (!sn.isOccupied (⟨(rx : Int) % COLUMNS, (ry : Int) % ROWS⟩ : point) &&
          !fd.isOccupied (⟨(rx : Int) % COLUMNS, (ry : Int) % ROWS⟩ : point)) = true) :
    (⟨(rx : Int) % COLUMNS, (ry : Int) % ROWS⟩ : point) ∈ freeCells sn fd := by
  obtain ⟨hs, hf⟩ := accept_test_eq_true _ _ _ h
  unfold freeCells
  rw [Finset.mem_filter]
  exact ⟨sample_mem_gridCells rx ry, hs, hf⟩

/-- When fewer cells are free of the snake and the existing food than the
requested amount, placeFood never terminates: it returns none on every finite
sample stream. -/
theorem placeFood_none_of_card_lt (sn : Snake) :
    ∀ (rnd : List (Nat × Nat)) (fd : Food) (n : Int),
      ((freeCells sn fd).card : Int) < n →
      fd.placeFood sn n rnd = none := by
  intro rnd
  induction rnd with
  | nil => intro fd n _; rfl
  | cons r rest ih =>
    intro fd n hcard
    obtain ⟨rx, ry⟩ := r
    show Food.placeFood fd sn n ((rx, ry) :: rest) = none
    by_cases hacc :
        (!sn.isOccupied (⟨(rx : Int) % COLUMNS, (ry : Int) % ROWS⟩ : point) &&
         !fd.isOccupied (⟨(rx : Int) % COLUMNS, (ry : Int) % ROWS⟩ : point)) = true
    · have hfree := accepted_mem_freeCells sn fd rx ry hacc
      have hpos : 0 < (freeCells sn fd).card := Finset.card_pos.mpr ⟨_, hfree⟩
      simp only [Food.placeFood, hacc, if_true]
      rw [if_neg (by omega)]
      apply ih
      rw [freeCells_append sn fd _, Finset.card_erase_of_mem hfree]
      omega
    · simp only [Food.placeFood, hacc, Bool.false_eq_true, if_false]
      exact ih fd n hcard

/-! ### Reachability invariant -/

/-- A freshly constructed game starts at the initial snake length. -/
theorem initGame_getLength (d : Direction) :
    (initGame d).snake.getLength = INIT_SNAKE_LENGTH := by
  cases d <;> decide

/-- At every externally observed tick boundary the snake length lies between
the initial length and one below the maximal length: a tick that would end at
the maximal length transitions to Won and resets instead. -/
theorem reachable_length_invariant (s : GameState) (h : Reachable s) :
    INIT_SNAKE_LENGTH ≤ s.snake.getLength ∧
    s.snake.getLength ≤ MAX_SNAKE_LENGTH - 1 := by
  induction h with
  | init rnd fd hpf =>
    show INIT_SNAKE_LENGTH ≤ (initGame DOWN).snake.getLength ∧
      (initGame DOWN).snake.getLength ≤ MAX_SNAKE_LENGTH - 1
    rw [initGame_getLength]
    decide
  | step s input rnd s' o hs htick ih =>
    obtain ⟨hsn, hdir, ho⟩ := tick_eq_some _ _ _ _ _ htick
    cases o with
    | Lost =>
      show INIT_SNAKE_LENGTH ≤ (initGame s'.direct).snake.getLength ∧
        (initGame s'.direct).snake.getLength ≤ MAX_SNAKE_LENGTH - 1
      rw [initGame_getLength]
      decide
    | Won =>
      show INIT_SNAKE_LENGTH ≤ (initGame s'.direct).snake.getLength ∧
        (initGame s'.direct).snake.getLength ≤ MAX_SNAKE_LENGTH - 1
      rw [initGame_getLength]
      decide
    | Running =>
      show INIT_SNAKE_LENGTH ≤ s'.snake.getLength ∧
        s'.snake.getLength ≤ MAX_SNAKE_LENGTH - 1
      have hout := ho.symm
      unfold tickOutcome at hout
      split at hout
      · simp at hout
      · split at hout
        · simp at hout
        · rename_i hcol hmax
          rw [hsn]
          rcases tickSnake_getLength s input with hlen | hlen <;>
            simp only [INIT_SNAKE_LENGTH, MAX_SNAKE_LENGTH] at ih hmax ⊢ <;>
            omega

/-! ### Remaining helper lemmas -/

/-- Membership in a take prefix through optional indexing. -/
theorem mem_take_iff (l : List point) (k : Nat) (a : point) :
    a ∈ l.take k ↔ ∃ i : Nat, i < k ∧ l[i]? = some a := by
  rw [List.mem_iff_getElem?]
  constructor
  · rintro ⟨i, hi⟩
    have hik : i < k := by
      by_contra hik
      rw [List.getElem?_eq_none (by simp; omega)] at hi
      cases hi
    rw [List.getElem?_take_of_lt hik] at hi
    exact ⟨i, hik, hi⟩
  · rintro ⟨i, hik, hi⟩
    exact ⟨i, by rw [List.getElem?_take_of_lt hik]; exact hi⟩

/-- A food cell is unoccupied exactly when it is not among the active cells. -/
theorem food_isOccupied_eq_false_iff (fd : Food) (p : point) :
    fd.isOccupied p = false ↔ p ∉ fd.foodPoints := by
  simp only [Food.isOccupied, List.any_eq_false, beq_iff_eq]
  constructor
  · intro h hmem
    exact h p hmem rfl
  · intro h x hx hxp
    exact h (hxp ▸ hx)

/-- The moved snake of a tick in which food was eaten. -/
theorem tickSnake_of_eat (s : GameState) (input : Direction)
    (h : (s.food.tryEat
        ((s.snake.extend (updateDirection s.direct input)).getHead)).1 = true) :
    tickSnake s input = s.snake.extend (updateDirection s.direct input) := by
  simp only [tickSnake]
  rw [if_pos h]

/-- The moved snake of a tick in which no food was eaten. -/
theorem tickSnake_of_no_eat (s : GameState) (input : Direction)
    (h : (s.food.tryEat
        ((s.snake.extend (updateDirection s.direct input)).getHead)).1 = false) :
    tickSnake s input = (s.snake.extend (updateDirection s.direct input)).cut := by
  simp only [tickSnake]
  rw [if_neg (by simp [h])]

/-! ### Claims -/

/-- Claim C2: for a head inside the grid, extend produces the componentwise
head plus unit vector plus grid size, reduced modulo the grid size, which
again lies inside the grid; in particular a head in the last column heading
RIGHT wraps to column zero of the same row. -/
theorem claim2_toroidal_wrap (sn : Snake) (d : Direction)
    (hx0 : 0 ≤ sn.getHead.x) (hx1 : sn.getHead.x < COLUMNS)
    (hy0 : 0 ≤ sn.getHead.y) (hy1 : sn.getHead.y < ROWS) :
    ((sn.extend d).getHead =
        ⟨(sn.getHead.x + (makeDirectionVector d).x + COLUMNS) % COLUMNS,
         (sn.getHead.y + (makeDirectionVector d).y + ROWS) % ROWS⟩ ∧
      0 ≤ (sn.extend d).getHead.x ∧ (sn.extend d).getHead.x < COLUMNS ∧
      0 ≤ (sn.extend d).getHead.y ∧ (sn.extend d).getHead.y < ROWS) ∧
    (sn.getHead.x = COLUMNS - 1 → d = RIGHT →
      (sn.extend d).getHead = ⟨0, sn.getHead.y⟩) := by
  have hmain : (sn.extend d).getHead =
      ⟨(sn.getHead.x + (makeDirectionVector d).x + COLUMNS) % COLUMNS,
       (sn.getHead.y + (makeDirectionVector d).y + ROWS) % ROWS⟩ := by
    rw [extend_getHead]
    have hx := tmod_eq_emod_of_nonneg
      (sn.getHead.x + (makeDirectionVector d).x + COLUMNS) COLUMNS
      (by cases d <;> simp only [makeDirectionVector, COLUMNS] at * <;> omega)
      (by decide)
    have hy := tmod_eq_emod_of_nonneg
      (sn.getHead.y + (makeDirectionVector d).y + ROWS) ROWS
      (by cases d <;> simp only [makeDirectionVector, ROWS] at * <;> omega)
      (by decide)
    rw [hx, hy]
  refine ⟨⟨hmain, ?_, ?_, ?_, ?_⟩, ?_⟩
  · rw [hmain]
    show 0 ≤ (sn.getHead.x + (makeDirectionVector d).x + COLUMNS) % COLUMNS
    simp only [COLUMNS]
    omega
  · rw [hmain]
    show (sn.getHead.x + (makeDirectionVector d).x + COLUMNS) % COLUMNS < COLUMNS
    simp only [COLUMNS]
    omega
  · rw [hmain]
    show 0 ≤ (sn.getHead.y + (makeDirectionVector d).y + ROWS) % ROWS
    simp only [ROWS]
    omega
  · rw [hmain]
    show (sn.getHead.y + (makeDirectionVector d).y + ROWS) % ROWS < ROWS
    simp only [ROWS]
    omega
  · intro hx hd
    subst hd
    rw [hmain, hx]
    simp only [makeDirectionVector, point.mk.injEq]
    constructor
    · simp only [COLUMNS]
      omega
    · simp only [ROWS, COLUMNS] at *
      omega

/-- Claim C3: the heading update at the top of a tick changes the effective
heading to the requested direction exactly when the difference of the cyclic
indices of the two directions is odd modulo 4; a request equal to or opposite
to the current heading keeps the current heading, so from DOWN a requested UP
leaves DOWN and a requested LEFT or RIGHT is accepted. -/
theorem claim3_turn_acceptance :
    (∀ (cur req : Direction),
        updateDirection cur req =
          if (req.toInt - cur.toInt) % 4 = 1 ∨ (req.toInt - cur.toInt) % 4 = 3
          then req else cur) ∧
    updateDirection DOWN UP = DOWN ∧
    updateDirection DOWN DOWN = DOWN ∧
    updateDirection DOWN LEFT = LEFT ∧
    updateDirection DOWN RIGHT = RIGHT := by
  refine ⟨fun cur req => ?_, by decide, by decide, by decide, by decide⟩
  cases cur <;> cases req <;> decide

/-- Claim C5: checkSelfCollision reports true exactly when the head, the cell
of largest index, equals some cell of index strictly below the last one. -/
theorem claim5_self_collision_exact (sn : Snake) :
    sn.checkSelfCollision = true ↔
      ∃ i : Nat, i + 1 < sn.cells.length ∧ sn.cells[i]? = some sn.getHead := by
  unfold Snake.checkSelfCollision
  rw [List.any_eq_true]
  constructor
  · rintro ⟨q, hq, hbeq⟩
    rw [beq_iff_eq] at hbeq
    subst hbeq
    obtain ⟨i, hik, hi⟩ := (mem_take_iff _ _ _).mp hq
    obtain ⟨hlt, _⟩ := List.getElem?_eq_some.mp hi
    exact ⟨i, by omega, hi⟩
  · rintro ⟨i, hik, hi⟩
    exact ⟨sn.getHead, (mem_take_iff _ _ _).mpr ⟨i, by omega, hi⟩,
      beq_self_eq_true _⟩

/-- Claim C8: a placeFood run with a positive request returns only after
exactly that many acceptances, raising the food count by exactly the request;
and when fewer grid cells are free of the snake and the existing food than
the request, no finite sample stream makes the run return. -/
theorem claim8_place_food_termination :
    (∀ (sn : Snake) (fd : Food) (n : Int) (rnd : List (Nat × Nat)) (fd' : Food),
        1 ≤ n → fd.placeFood sn n rnd = some fd' →
        fd'.getCount = fd.getCount + n) ∧
    (∀ (sn : Snake) (fd : Food) (n : Int) (rnd : List (Nat × Nat)),
        ((freeCells sn fd).card : Int) < n → fd.placeFood sn n rnd = none) :=
  ⟨fun sn fd n rnd fd' => placeFood_count_of_pos sn rnd fd n fd',
   fun sn fd n rnd => placeFood_none_of_card_lt sn rnd fd n⟩

/-- Claim C9: tryEat succeeds exactly when the point is an active food cell;
on success the count drops by one and the remaining cells are the original
multiset minus one occurrence of the point; on failure the state is
unchanged. -/
theorem claim9_try_eat (fd : Food) (p : point) :
    ((fd.tryEat p).1 = true ↔ p ∈ fd.foodPoints) ∧
    ((fd.tryEat p).1 = true →
      (fd.tryEat p).2.getCount = fd.getCount - 1 ∧
      ((fd.tryEat p).2.foodPoints : Multiset point) =
        (fd.foodPoints : Multiset point).erase p) ∧
    ((fd.tryEat p).1 = false → (fd.tryEat p).2 = fd) := by
  refine ⟨tryEat_fst_iff_mem fd p,
    fun h => ⟨tryEat_count_of_found fd p h, ?_⟩,
    tryEat_snd_of_not_found fd p⟩
  have hms := (tryEat_snd_of_found fd p h).1
  rw [← hms, Multiset.erase_add_right_pos _ (by simp)]
  simp

/-- Claim C10: a placeFood call with a request of zero or less still places
exactly one piece before returning, because the exit test runs only after a
successful placement; and the refill step of the tick only ever requests a
strictly positive shortfall, under either refill strategy, so such a call is
unreachable from the tick loop. -/
theorem claim10_nonpositive_place :
    (∀ (sn : Snake) (fd : Food) (n : Int) (rnd : List (Nat × Nat)) (fd' : Food),
        n ≤ 0 → fd.placeFood sn n rnd = some fd' →
        fd'.getCount = fd.getCount + 1) ∧
    (∀ (b : Bool) (c a : Int), refillShortfall b c = some a → 1 ≤ a) := by
  constructor
  · exact fun sn fd n rnd fd' => placeFood_count_of_nonpos sn rnd fd n fd'
  · intro b c a h
    unfold refillShortfall FOOD_POINTS at h
    split at h
    · split at h
      · rename_i hc
        injection h with h
        omega
      · cases h
    · split at h
      · injection h with h
        omega
      · cases h

/-- Claim C1, counterexample: a concrete completed eating tick in which the
new head lands on a food cell but, because the immediate refill strategy tops
the food back up within the same tick, the food count at the end of the tick
is not one below its starting value. -/
theorem claim1_counterexample :
    Reachable ⟨⟨[⟨7, 0⟩, ⟨7, 1⟩]⟩, ⟨[⟨7, 2⟩, ⟨0, 0⟩]⟩, Direction.DOWN⟩ ∧
    tick ⟨⟨[⟨7, 0⟩, ⟨7, 1⟩]⟩, ⟨[⟨7, 2⟩, ⟨0, 0⟩]⟩, Direction.DOWN⟩ DOWN [(3, 3)] =
      some (⟨⟨[⟨7, 0⟩, ⟨7, 1⟩, ⟨7, 2⟩]⟩, ⟨[⟨0, 0⟩, ⟨3, 3⟩]⟩, Direction.DOWN⟩,
        Outcome.Running) ∧
    ((⟨⟨[⟨7, 0⟩, ⟨7, 1⟩]⟩, ⟨[⟨7, 2⟩, ⟨0, 0⟩]⟩, Direction.DOWN⟩ :
        GameState).snake.extend
      (updateDirection Direction.DOWN Direction.DOWN)).getHead ∈
        ([⟨7, 2⟩, ⟨0, 0⟩] : List point) ∧
    ¬((⟨[⟨0, 0⟩, ⟨3, 3⟩]⟩ : Food).getCount =
        (⟨[⟨7, 2⟩, ⟨0, 0⟩]⟩ : Food).getCount - 1) := by
  refine ⟨Reachable.init [(7, 2), (0, 0)] ⟨[⟨7, 2⟩, ⟨0, 0⟩]⟩ (by decide),
    by decide, by decide, by decide⟩

/-- Claim C1, amended: in a completed tick, when the new head computed by
extend equals an active food cell, the snake length at the end of the tick has
grown by exactly one, the tail cell is unchanged and cut is not called, and
the food count has dropped by exactly one at the eat step, before the refill
step runs; otherwise cut is called and the length is unchanged. -/
theorem claim1_eat_semantics (s : GameState) (input : Direction)
    (rnd : List (Nat × Nat)) (s' : GameState) (o : Outcome)
    (hne : s.snake.cells ≠ [])
    (h : tick s input rnd = some (s', o)) :
    (((s.snake.extend (updateDirection s.direct input)).getHead ∈
        s.food.foodPoints) →
      s'.snake.getLength = s.snake.getLength + 1 ∧
      s'.snake.getTail = s.snake.getTail ∧
      s'.snake = s.snake.extend (updateDirection s.direct input) ∧
      (s.food.tryEat
          ((s.snake.extend (updateDirection s.direct input)).getHead)).2.getCount
        = s.food.getCount - 1) ∧
    (((s.snake.extend (updateDirection s.direct input)).getHead ∉
        s.food.foodPoints) →
      s'.snake = (s.snake.extend (updateDirection s.direct input)).cut ∧
      s'.snake.getLength = s.snake.getLength) := by
  obtain ⟨hsn, hdir, ho⟩ := tick_eq_some _ _ _ _ _ h
  constructor
  · intro hmem
    have heat : (s.food.tryEat
        ((s.snake.extend (updateDirection s.direct input)).getHead)).1 = true :=
      (tryEat_fst_iff_mem _ _).mpr hmem
    have hsnake : s'.snake = s.snake.extend (updateDirection s.direct input) := by
      rw [hsn, tickSnake_of_eat s input heat]
    refine ⟨?_, ?_, hsnake, tryEat_count_of_found _ _ heat⟩
    · rw [hsnake]
      exact extend_getLength _ _
    · rw [hsnake]
      exact extend_getTail _ _ hne
  · intro hmem
    cases hb : (s.food.tryEat
        ((s.snake.extend (updateDirection s.direct input)).getHead)).1 with
    | true => exact absurd ((tryEat_fst_iff_mem _ _).mp hb) hmem
    | false =>
      have hsnake : s'.snake =
          (s.snake.extend (updateDirection s.direct input)).cut := by
        rw [hsn, tickSnake_of_no_eat s input hb]
      refine ⟨hsnake, ?_⟩
      rw [hsnake]
      exact extend_cut_getLength _ _

/-- Claim C4: at every reachable tick boundary the snake length lies in the
band from the initial length to one past the maximal length and never equals
one past the maximal length there; the value one past the maximal length can
at most appear transiently in the extend phase inside a tick, whose result
also stays within the band. -/
theorem claim4_length_bound (s : GameState) (h : Reachable s) :
    (INIT_SNAKE_LENGTH ≤ s.snake.getLength ∧
     s.snake.getLength ≤ MAX_SNAKE_LENGTH + 1 ∧
     s.snake.getLength ≠ MAX_SNAKE_LENGTH + 1) ∧
    ∀ input : Direction,
      (s.snake.extend (updateDirection s.direct input)).getLength ≤
        MAX_SNAKE_LENGTH + 1 := by
  obtain ⟨h1, h2⟩ := reachable_length_invariant s h
  refine ⟨⟨h1, by omega, by omega⟩, fun input => ?_⟩
  rw [extend_getLength]
  omega

/-- Claim C6: placeFood preserves food exclusivity: starting from pairwise
distinct food cells disjoint from the snake, any terminating run again yields
pairwise distinct food cells disjoint from the snake, because every accepted
sample is checked against both. -/
theorem claim6_food_exclusivity (sn : Snake) :
    ∀ (rnd : List (Nat × Nat)) (fd : Food) (n : Int) (fd' : Food),
      fd.foodPoints.Pairwise (fun a b => a ≠ b) →
      (∀ p ∈ fd.foodPoints, sn.isOccupied p = false) →
      fd.placeFood sn n rnd = some fd' →
      fd'.foodPoints.Pairwise (fun a b => a ≠ b) ∧
      ∀ p ∈ fd'.foodPoints, sn.isOccupied p = false := by
  intro rnd
  induction rnd with
  | nil =>
    intro fd n fd' _ _ h
    simp [Food.placeFood] at h
  | cons r rest ih =>
    intro fd n fd' hpair hdisj h
    obtain ⟨rx, ry⟩ := r
    simp only [Food.placeFood] at h
    split at h
    · rename_i hacc
      obtain ⟨hs, hf⟩ := accept_test_eq_true _ _ _ hacc
      have hnotmem := (food_isOccupied_eq_false_iff _ _).mp hf
      have hpair2 : (fd.foodPoints ++
          [(⟨(rx : Int) % COLUMNS, (ry : Int) % ROWS⟩ : point)]).Pairwise
          (fun a b => a ≠ b) := by
        rw [List.pairwise_append]
        refine ⟨hpair, by simp, ?_⟩
        intro a ha b hb
        rw [List.mem_singleton] at hb
        subst hb
        intro hab
        exact hnotmem (hab ▸ ha)
      have hdisj2 : ∀ p ∈ fd.foodPoints ++
          [(⟨(rx : Int) % COLUMNS, (ry : Int) % ROWS⟩ : point)],
          sn.isOccupied p = false := by
        intro p hp
        rw [List.mem_append] at hp
        cases hp with
        | inl hp => exact hdisj p hp
        | inr hp =>
          rw [List.mem_singleton] at hp
          subst hp
          exact hs
      split at h
      · injection h with h
        subst h
        exact ⟨hpair2, hdisj2⟩
      · exact ih _ _ _ hpair2 hdisj2 h
    · exact ih _ _ _ hpair hdisj h

/-- Claim C7: the terminal checks of a completed tick run in source order:
self-collision first, yielding Lost, then maximal length, yielding Won, else
the game keeps Running; at most one transition happens and Lost wins any tie;
a terminal outcome resets the game while Running carries the state over. -/
theorem claim7_terminal_order (s : GameState) (input : Direction)
    (rnd : List (Nat × Nat)) (s' : GameState) (o : Outcome)
    (h : tick s input rnd = some (s', o)) :
    (o = if s'.snake.checkSelfCollision then Outcome.Lost
         else if s'.snake.getLength = MAX_SNAKE_LENGTH then Outcome.Won
         else Outcome.Running) ∧
    (s'.snake.checkSelfCollision = true → o = Outcome.Lost) ∧
    (s'.snake.checkSelfCollision = false →
      s'.snake.getLength = MAX_SNAKE_LENGTH → o = Outcome.Won) ∧
    (o ≠ Outcome.Running → postTick s' o = initGame s'.direct) ∧
    (o = Outcome.Running → postTick s' o = s') := by
  obtain ⟨hsn, hdir, ho⟩ := tick_eq_some _ _ _ _ _ h
  rw [← hsn] at ho
  refine ⟨by rw [ho]; rfl, ?_, ?_, ?_, ?_⟩
  · intro hc
    rw [ho]
    unfold tickOutcome
    rw [if_pos hc]
  · intro hc hm
    rw [ho]
    unfold tickOutcome
    rw [if_neg (by simp [hc]), if_pos hm]
  · intro hno
    cases o with
    | Running => exact absurd rfl hno
    | Lost => rfl
    | Won => rfl
  · intro hr
    subst hr
    rfl

/-! ### Witnesses -/

/-- Witness for claim C1: the amended eat semantics evaluated on a concrete
eating tick. -/
theorem claim1_witness :
    (⟨⟨[⟨7, 0⟩, ⟨7, 1⟩, ⟨7, 2⟩]⟩, ⟨[⟨0, 0⟩, ⟨3, 3⟩]⟩, Direction.DOWN⟩ :
      GameState).snake.getLength =
      (⟨⟨[⟨7, 0⟩, ⟨7, 1⟩]⟩, ⟨[⟨7, 2⟩, ⟨0, 0⟩]⟩, Direction.DOWN⟩ :
      GameState).snake.getLength + 1 := by
  have h := claim1_eat_semantics
    ⟨⟨[⟨7, 0⟩, ⟨7, 1⟩]⟩, ⟨[⟨7, 2⟩, ⟨0, 0⟩]⟩, Direction.DOWN⟩ DOWN [(3, 3)]
    ⟨⟨[⟨7, 0⟩, ⟨7, 1⟩, ⟨7, 2⟩]⟩, ⟨[⟨0, 0⟩, ⟨3, 3⟩]⟩, Direction.DOWN⟩
    Outcome.Running (by decide) (by decide)
  exact (h.1 (by decide)).1

/-- Witness for claim C2: wrapping a head at the last column heading RIGHT on
a concrete snake. -/
theorem claim2_witness :
    ((⟨[(⟨7, 3⟩ : point)]⟩ : Snake).extend RIGHT).getHead = ⟨0, 3⟩ := by
  have h := claim2_toroidal_wrap ⟨[⟨7, 3⟩]⟩ RIGHT
    (by decide) (by decide) (by decide) (by decide)
  exact h.2 (by decide) rfl

/-- Witness for claim C4: the length band evaluated at a concrete reachable
state produced by setup. -/
theorem claim4_witness :
    INIT_SNAKE_LENGTH ≤
      (⟨(initGame DOWN).snake, ⟨[⟨0, 0⟩, ⟨1, 1⟩]⟩, DOWN⟩ :
        GameState).snake.getLength := by
  have h := claim4_length_bound
    ⟨(initGame DOWN).snake, ⟨[⟨0, 0⟩, ⟨1, 1⟩]⟩, DOWN⟩
    (Reachable.init [(0, 0), (1, 1)] ⟨[⟨0, 0⟩, ⟨1, 1⟩]⟩ (by decide))
  exact h.1.1

/-- Witness for claim C6: food exclusivity evaluated on a concrete
terminating placement run. -/
theorem claim6_witness :
    (⟨[⟨1, 1⟩, ⟨2, 2⟩]⟩ : Food).foodPoints.Pairwise (fun a b => a ≠ b) := by
  have h := claim6_food_exclusivity ⟨[⟨0, 0⟩]⟩ [(2, 2)] ⟨[⟨1, 1⟩]⟩ 1
    ⟨[⟨1, 1⟩, ⟨2, 2⟩]⟩ (by decide) (by decide) (by decide)
  exact h.1

/-- Witness for claim C7: the terminal checks evaluated on a concrete
completed non-eating tick. -/
theorem claim7_witness :
    postTick ⟨⟨[⟨7, 1⟩, ⟨7, 2⟩]⟩, ⟨[⟨0, 0⟩, ⟨1, 1⟩]⟩, Direction.DOWN⟩
        Outcome.Running =
      ⟨⟨[⟨7, 1⟩, ⟨7, 2⟩]⟩, ⟨[⟨0, 0⟩, ⟨1, 1⟩]⟩, Direction.DOWN⟩ := by
  have h := claim7_terminal_order
    ⟨⟨[⟨7, 0⟩, ⟨7, 1⟩]⟩, ⟨[⟨0, 0⟩, ⟨1, 1⟩]⟩, Direction.DOWN⟩ DOWN []
    ⟨⟨[⟨7, 1⟩, ⟨7, 2⟩]⟩, ⟨[⟨0, 0⟩, ⟨1, 1⟩]⟩, Direction.DOWN⟩ Outcome.Running
    (by decide)
  exact h.2.2.2.2 rfl

/-- Witness for claim C8: the count equation on a concrete terminating run
and nontermination on a concrete overfull request. -/
theorem claim8_witness :
    (⟨[⟨0, 0⟩, ⟨1, 1⟩]⟩ : Food).getCount = (⟨[⟨0, 0⟩]⟩ : Food).getCount + 1 ∧
    Food.placeFood ⟨[]⟩ ⟨[]⟩ 65 [(0, 0)] = none := by
  constructor
  · exact claim8_place_food_termination.1 ⟨[]⟩ ⟨[⟨0, 0⟩]⟩ 1 [(1, 1)]
      ⟨[⟨0, 0⟩, ⟨1, 1⟩]⟩ (by decide) (by decide)
  · exact claim8_place_food_termination.2 ⟨[]⟩ ⟨[]⟩ 65 [(0, 0)] (by decide)

/-- Witness for claim C9: the count drop evaluated on a concrete successful
tryEat. -/
theorem claim9_witness :
    ((⟨[⟨1, 1⟩]⟩ : Food).tryEat ⟨1, 1⟩).2.getCount =
      (⟨[(⟨1, 1⟩ : point)]⟩ : Food).getCount - 1 :=
  ((claim9_try_eat ⟨[⟨1, 1⟩]⟩ ⟨1, 1⟩).2.1 (by decide)).1

/-- Witness for claim C10: a concrete nonpositive request placing one piece,
and a concrete refill shortfall that is positive. -/
theorem claim10_witness :
    (⟨[(⟨0, 0⟩ : point)]⟩ : Food).getCount = (⟨[]⟩ : Food).getCount + 1 ∧
    (1 : Int) ≤ 2 := by
  constructor
  · exact claim10_nonpositive_place.1 ⟨[]⟩ ⟨[]⟩ 0 [(0, 0)] ⟨[⟨0, 0⟩]⟩
      (by decide) (by decide)
  · exact claim10_nonpositive_place.2 true 0 2 (by decide)

end ArduinoSnakeGame
